import Mathlib

/-!
Verification of the pony-referral-worker reconciliation engine
(`src/index.js`, function `trackAndFundReferrals`) against its
natural-language specification.

The JavaScript worker is shallowly embedded: external collaborators
(JSON-RPC provider, referral contract, wallet) become an `Env` of
oracles returning `Except WErr`; the single `async` cycle with its
surrounding `try/catch` becomes a pure function threading the
`lastProcessedBlock` checkpoint and producing an `Outcome` plus a
`Trace` of the externally visible calls (event-log queries issued and
funding submissions).  Block numbers are `Int` (JavaScript numbers may
go negative here: `currentBlock - 1000`); wei amounts are `Nat`
(ethers `BigNumber`s in the source are non-negative, and the one
subtraction is guarded by `gt`).
-/

namespace PonyWorker

/-- Addresses (players, referrers) are identified by a number. -/
abbrev Addr := Nat

/-- Errors surfaced by external calls: transport failures and ledger
reverts, each carrying an opaque code standing for the message. -/
inductive WErr where
  | network (code : Nat)
  | revert (code : Nat)
deriving DecidableEq, Repr

/-- One `RaceExecuted` log record, after ethers ABI decoding
(`event RaceExecuted(uint256 raceId, address player, uint256 horseId,
uint256[3] winners, uint256 payout, bool won)`).  The cycle only reads
`player`, but the full record is kept. -/
structure RaceEvent where
  raceId : Nat
  player : Addr
  horseId : Nat
  winners : List Nat
  payout : Nat
  won : Bool
deriving DecidableEq, Repr

/-- The per-referrer accumulator stored in the `referralData` map:
`{ raceCount, totalReward }`. -/
structure Accrual where
  raceCount : Nat
  totalReward : Nat
deriving DecidableEq, Repr

/-- The external world of one cycle: every network call the source
makes, as a deterministic oracle.  `fundRewards` yields a transaction
identifier, `txWait` a receipt (block number) for it. -/
structure Env where
  getBlockNumber : Except WErr Int
  queryFilter : Int → Int → Except WErr (List RaceEvent)
  hasReferrer : Addr → Except WErr Bool
  referrerOf : Addr → Except WErr Addr
  pendingRewards : Addr → Except WErr Nat
  getBalance : Except WErr Nat
  fundRewards : List Addr → List Nat → Nat → Except WErr Nat
  txWait : Nat → Except WErr Nat

/-- How a cycle ends, mirroring the source's console reports:
the three early returns, the insufficient-balance return, the
successful funding path, and the `catch` block. -/
inductive Outcome where
  | noNewRaces
  | noReferredRaces
  | allFunded
  | insufficientFunds
  | funded (referrers : List Addr) (amounts : List Nat) (total : Nat)
  | errored (e : WErr)
deriving DecidableEq, Repr

/-- Externally visible calls of one cycle: the block ranges passed to
`queryFilter` and the argument triples passed to `fundRewards`. -/
structure Trace where
  queries : List (Int × Int)
  fundCalls : List (List Addr × List Nat × Nat)
deriving DecidableEq, Repr

/-- `referralData.set`/`get` update for one referred race: if the
referrer is absent it is inserted (JavaScript `Map` appends new keys
in insertion order) with `{raceCount: 0, totalReward: 0}`, then the
entry is incremented by one race and `reward` wei
(src/index.js lines 75-84). -/
def bumpAccrual (m : List (Addr × Accrual)) (k : Addr) (reward : Nat) :
    List (Addr × Accrual) :=
  match m with
  | [] => [(k, ⟨1, reward⟩)]
  | (a, v) :: rest =>
    if a = k then (a, ⟨v.raceCount + 1, v.totalReward + reward⟩) :: rest
    else (a, v) :: bumpAccrual rest k reward

/-- The aggregation loop `for (const event of events)`
(src/index.js lines 65-86): for each event, ask `hasReferrer(player)`;
if `false` the event is skipped, if `true` resolve `referrerOf(player)`
and bump that referrer's accrual.  Any oracle failure throws. -/
def aggregate (env : Env) (reward : Nat) :
    List RaceEvent → List (Addr × Accrual) →
    Except WErr (List (Addr × Accrual))
  | [], m => .ok m
  | e :: rest, m =>
    match env.hasReferrer e.player with
    | .error err => .error err
    | .ok false => aggregate env reward rest m
    | .ok true =>
      match env.referrerOf e.player with
      | .error err => .error err
      | .ok r => aggregate env reward rest (bumpAccrual m r reward)

/-- The diffing loop `for (const [referrerAddress, data] of
referralData.entries())` (src/index.js lines 101-117): query
`pendingRewards`, set
`unfunded = totalOwed.gt(currentPending) ? totalOwed.sub(currentPending) : 0`,
and push `(referrer, unfunded)` onto the plan only when
`unfunded.gt(0)`, accumulating the total.  Effects happen in entry
order; the result triple is (referrersToFund, amountsToFund,
totalToFund). -/
def buildPlan (env : Env) :
    List (Addr × Accrual) → Except WErr (List Addr × List Nat × Nat)
  | [] => .ok ([], [], 0)
  | (r, data) :: rest =>
    match env.pendingRewards r with
    | .error err => .error err
    | .ok currentPending =>
      let totalOwed := data.totalReward
      let unfunded := if currentPending < totalOwed then totalOwed - currentPending else 0
      match buildPlan env rest with
      | .error err => .error err
      | .ok (referrers, amounts, total) =>
        if 0 < unfunded then .ok (r :: referrers, unfunded :: amounts, total + unfunded)
        else .ok (referrers, amounts, total)

/-- `REWARD_PER_RACE = ethers.utils.parseEther("0.00005")` in wei. -/
def REWARD_PER_RACE : Nat := 50000000000000

/-- One whole reconciliation cycle, `trackAndFundReferrals`
(src/index.js lines 37-164).  Input `lastProcessedBlock` is the
module-level checkpoint at cycle start; the result is the checkpoint
after the cycle, the outcome, and the trace.  Every `await` that
rejects lands in the `catch` block, which logs and leaves the
checkpoint untouched. -/
def trackAndFundReferrals (reward : Nat) (env : Env)
    (lastProcessedBlock : Int) : Int × Outcome × Trace :=
  match env.getBlockNumber with
  | .error e => (lastProcessedBlock, .errored e, ⟨[], []⟩)
  | .ok currentBlock =>
    let fromBlock : Int :=
      if lastProcessedBlock = 0 then currentBlock - 1000 else lastProcessedBlock + 1
    let queries := [(fromBlock, currentBlock)]
    match env.queryFilter fromBlock currentBlock with
    | .error e => (lastProcessedBlock, .errored e, ⟨queries, []⟩)
    | .ok events =>
      if events.isEmpty then (currentBlock, .noNewRaces, ⟨queries, []⟩)
      else
        match aggregate env reward events [] with
        | .error e => (lastProcessedBlock, .errored e, ⟨queries, []⟩)
        | .ok referralData =>
          if referralData.isEmpty then (currentBlock, .noReferredRaces, ⟨queries, []⟩)
          else
            match buildPlan env referralData with
            | .error e => (lastProcessedBlock, .errored e, ⟨queries, []⟩)
            | .ok (referrersToFund, amountsToFund, totalToFund) =>
              if referrersToFund.isEmpty then (currentBlock, .allFunded, ⟨queries, []⟩)
              else
                match env.getBalance with
                | .error e => (lastProcessedBlock, .errored e, ⟨queries, []⟩)
                | .ok balance =>
                  if balance < totalToFund then
                    (lastProcessedBlock, .insufficientFunds, ⟨queries, []⟩)
                  else
                    let fundCalls := [(referrersToFund, amountsToFund, totalToFund)]
                    match env.fundRewards referrersToFund amountsToFund totalToFund with
                    | .error e => (lastProcessedBlock, .errored e, ⟨queries, fundCalls⟩)
                    | .ok tx =>
                      match env.txWait tx with
                      | .error e => (lastProcessedBlock, .errored e, ⟨queries, fundCalls⟩)
                      | .ok _receipt =>
                        (currentBlock,
                         .funded referrersToFund amountsToFund totalToFund,
                         ⟨queries, fundCalls⟩)

/-! ### Equation lemmas -/

theorem buildPlan_nil (env : Env) : buildPlan env [] = .ok ([], [], 0) := rfl

theorem buildPlan_cons (env : Env) (r : Addr) (data : Accrual)
    (rest : List (Addr × Accrual)) :
    buildPlan env ((r, data) :: rest) =
      match env.pendingRewards r with
      | .error err => .error err
      | .ok currentPending =>
        match buildPlan env rest with
        | .error err => .error err
        | .ok (referrers, amounts, total) =>
          if 0 < (if currentPending < data.totalReward then data.totalReward - currentPending else 0)
          then .ok (r :: referrers,
                (if currentPending < data.totalReward then data.totalReward - currentPending else 0) :: amounts,
                total + (if currentPending < data.totalReward then data.totalReward - currentPending else 0))
          else .ok (referrers, amounts, total) := rfl

/-! ### Structure of a successfully built FundingPlan -/

/-- Everything `buildPlan` guarantees about a plan it returns: parallel
lists of equal length, strictly positive amounts, total equal to the
sum, referrers forming a sublist of the entry keys, and every planned
amount being exactly the clamped difference `max 0 (accrued − pending)`
for an entry of the input. -/
theorem buildPlan_ok_spec (env : Env) :
    ∀ (entries : List (Addr × Accrual)) (rs : List Addr) (amts : List Nat) (t : Nat),
      buildPlan env entries = .ok (rs, amts, t) →
      rs.length = amts.length ∧ (∀ a ∈ amts, 0 < a) ∧ t = amts.sum ∧
      rs.Sublist (entries.map Prod.fst) ∧
      ∀ pr ∈ rs.zip amts, ∃ acc p, (pr.1, acc) ∈ entries ∧
        env.pendingRewards pr.1 = .ok p ∧
        (pr.2 : Int) = max 0 ((acc.totalReward : Int) - (p : Int)) := by
  intro entries
  induction entries with
  | nil =>
    intro rs amts t h
    rw [buildPlan_nil] at h
    cases h
    simp
  | cons hd tl ih =>
    obtain ⟨r, data⟩ := hd
    intro rs amts t h
    rw [buildPlan_cons] at h
    cases hp : env.pendingRewards r with
    | error e => rw [hp] at h; cases h
    | ok p =>
      rw [hp] at h
      cases hb : buildPlan env tl with
      | error e => rw [hb] at h; cases h
      | ok triple =>
        obtain ⟨rs0, amts0, t0⟩ := triple
        rw [hb] at h
        dsimp only at h
        obtain ⟨hlen, hpos, hsum, hsub, hzip⟩ := ih rs0 amts0 t0 hb
        by_cases hu : 0 < (if p < data.totalReward then data.totalReward - p else 0)
        · have hlt : p < data.totalReward := by
            by_contra hc
            rw [if_neg hc] at hu
            exact absurd hu (by simp)
          rw [if_pos hlt] at h hu
          rw [if_pos hu] at h
          cases h
          refine ⟨by simp [hlen], ?_, ?_, ?_, ?_⟩
          · intro a ha
            rcases List.mem_cons.mp ha with h1 | h1
            · exact h1 ▸ hu
            · exact hpos a h1
          · simp [hsum, Nat.add_comm]
          · simpa using hsub.cons₂ r
          · intro pr hpr
            rcases List.mem_cons.mp (by simpa using hpr) with h1 | h1
            · refine ⟨data, p, by simp [h1], by simp [h1, hp], ?_⟩
              subst h1
              simp only
              omega
            · obtain ⟨acc, q, hmem, hq, hval⟩ := hzip pr h1
              exact ⟨acc, q, List.mem_cons_of_mem _ hmem, hq, hval⟩
        · rw [if_neg hu] at h
          cases h
          refine ⟨hlen, hpos, hsum, hsub.trans (by simp), ?_⟩
          intro pr hpr
          obtain ⟨acc, q, hmem, hq, hval⟩ := hzip pr hpr
          exact ⟨acc, q, List.mem_cons_of_mem _ hmem, hq, hval⟩

/-- If an entry's accrued total does not exceed its pending balance
(zero unfunded amount) and entry keys are distinct, that referrer is
not in the plan. -/
theorem buildPlan_zero_excluded (env : Env) :
    ∀ (entries : List (Addr × Accrual)) (rs : List Addr) (amts : List Nat) (t : Nat),
      (entries.map Prod.fst).Nodup →
      buildPlan env entries = .ok (rs, amts, t) →
      ∀ r acc p, (r, acc) ∈ entries → env.pendingRewards r = .ok p →
        acc.totalReward ≤ p → r ∉ rs := by
  intro entries
  induction entries with
  | nil =>
    intro rs amts t _ h
    rw [buildPlan_nil] at h
    cases h
    simp
  | cons hd tl ih =>
    obtain ⟨r0, data⟩ := hd
    intro rs amts t hnd h
    rw [buildPlan_cons] at h
    cases hp : env.pendingRewards r0 with
    | error e => rw [hp] at h; cases h
    | ok p0 =>
      rw [hp] at h
      cases hb : buildPlan env tl with
      | error e => rw [hb] at h; cases h
      | ok triple =>
        obtain ⟨rs0, amts0, t0⟩ := triple
        rw [hb] at h
        dsimp only at h
        have hnd0 : (tl.map Prod.fst).Nodup := (List.nodup_cons.mp (by simpa using hnd)).2
        have hr0 : r0 ∉ tl.map Prod.fst := (List.nodup_cons.mp (by simpa using hnd)).1
        intro r acc p hmem hpend hle hin
        rcases List.mem_cons.mp hmem with h1 | h1
        · -- the offending entry is the head: its unfunded amount is zero,
          -- so the head is not pushed, and r0 cannot occur in the tail plan
          have hr : r = r0 := by simpa using congrArg Prod.fst h1
          have hacc : acc = data := by simpa using congrArg Prod.snd h1
          have hpp : p = p0 := by
            rw [hr, hp] at hpend
            exact (Except.ok.inj hpend).symm
          have hld : data.totalReward ≤ p0 := by
            rw [hacc, hpp] at hle
            exact hle
          have hzero : ¬ 0 < (if p0 < data.totalReward then data.totalReward - p0 else 0) := by
            by_cases hlt : p0 < data.totalReward
            · omega
            · simp [hlt]
          rw [if_neg hzero] at h
          cases h
          have hsub := (buildPlan_ok_spec env tl _ _ _ hb).2.2.2.1
          rw [hr] at hin
          exact hr0 (hsub.mem hin)
        · -- the offending entry lives in the tail
          by_cases hu : 0 < (if p0 < data.totalReward then data.totalReward - p0 else 0)
          · rw [if_pos hu] at h
            cases h
            rcases List.mem_cons.mp hin with h2 | h2
            · subst h2
              exact hr0 (List.mem_map.mpr ⟨(r, acc), h1, rfl⟩)
            · exact ih _ _ _ hnd0 hb r acc p h1 hpend hle h2
          · rw [if_neg hu] at h
            cases h
            exact ih _ _ _ hnd0 hb r acc p h1 hpend hle hin

/-! ### Claim C2 -/

/-- C2: every amount placed in the FundingPlan equals
`max 0 (accruedReward − pendingBalance)` for its referrer's entry (in
particular it is never negative, being the clamp of an integer
difference at zero), and a referrer whose unfunded amount is zero is
excluded from the plan's parallel lists. -/
theorem claim_C2_unfunded_clamped (env : Env) (entries : List (Addr × Accrual))
    (rs : List Addr) (amts : List Nat) (t : Nat)
    (hnd : (entries.map Prod.fst).Nodup)
    (h : buildPlan env entries = .ok (rs, amts, t)) :
    (∀ pr ∈ rs.zip amts, ∃ acc p, (pr.1, acc) ∈ entries ∧
        env.pendingRewards pr.1 = .ok p ∧
        (pr.2 : Int) = max 0 ((acc.totalReward : Int) - (p : Int))) ∧
    (∀ a ∈ amts, 0 < a) ∧
    (∀ r acc p, (r, acc) ∈ entries → env.pendingRewards r = .ok p →
        max 0 ((acc.totalReward : Int) - (p : Int)) = 0 → r ∉ rs) := by
  obtain ⟨_, hpos, _, _, hzip⟩ := buildPlan_ok_spec env entries rs amts t h
  refine ⟨hzip, hpos, ?_⟩
  intro r acc p hmem hpend hzero
  have hle : acc.totalReward ≤ p := by omega
  exact buildPlan_zero_excluded env entries rs amts t hnd h r acc p hmem hpend hle

/-! ### Claim C3 -/

/-- C3: the Diffing step depends only on the accrual entries and the
ledger's pending balances at their keys — two plan computations
against environments whose `pendingRewards` agree on every entry key
(in particular, the same environment twice, or a re-run of the
identical window with unchanged pending balances) produce the
identical FundingPlan. -/
theorem claim_C3_diffing_idempotent (env env2 : Env)
    (entries : List (Addr × Accrual))
    (hagree : ∀ pr ∈ entries, env.pendingRewards pr.1 = env2.pendingRewards pr.1) :
    buildPlan env entries = buildPlan env2 entries := by
  induction entries with
  | nil => rfl
  | cons hd tl ih =>
    obtain ⟨r, data⟩ := hd
    rw [buildPlan_cons, buildPlan_cons]
    rw [← hagree (r, data) (List.mem_cons_self _ _)]
    rw [ih (fun pr hpr => hagree pr (List.mem_cons_of_mem _ hpr))]

/-! ### Aggregation lemmas -/

/-- Observation of the `referralData` map: the accrual stored for a
key, `{raceCount: 0, totalReward: 0}` when absent. -/
def accrualOf (m : List (Addr × Accrual)) (k : Addr) : Accrual :=
  match m with
  | [] => ⟨0, 0⟩
  | (a, v) :: rest => if a = k then v else accrualOf rest k

theorem bumpAccrual_self (m : List (Addr × Accrual)) (k : Addr) (reward : Nat) :
    accrualOf (bumpAccrual m k reward) k =
      ⟨(accrualOf m k).raceCount + 1, (accrualOf m k).totalReward + reward⟩ := by
  induction m with
  | nil => simp [bumpAccrual, accrualOf]
  | cons hd tl ih =>
    obtain ⟨a, v⟩ := hd
    by_cases hak : a = k
    · subst hak
      simp [bumpAccrual, accrualOf]
    · simp [bumpAccrual, accrualOf, hak, ih]

theorem bumpAccrual_other (m : List (Addr × Accrual)) (k a : Addr) (reward : Nat)
    (h : a ≠ k) : accrualOf (bumpAccrual m k reward) a = accrualOf m a := by
  have hka : ¬ (k = a) := fun hh => h hh.symm
  induction m with
  | nil => simp [bumpAccrual, accrualOf, hka]
  | cons hd tl ih =>
    obtain ⟨b, v⟩ := hd
    by_cases hbk : b = k
    · subst hbk
      simp [bumpAccrual, accrualOf, hka]
    · simp only [bumpAccrual, if_neg hbk, accrualOf]
      by_cases hba : b = a
      · simp [hba]
      · simp [hba, ih]

theorem bumpAccrual_keys (m : List (Addr × Accrual)) (k : Addr) (reward : Nat) :
    (bumpAccrual m k reward).map Prod.fst =
      if k ∈ m.map Prod.fst then m.map Prod.fst else m.map Prod.fst ++ [k] := by
  induction m with
  | nil => simp [bumpAccrual]
  | cons hd tl ih =>
    obtain ⟨a, v⟩ := hd
    by_cases hak : a = k
    · subst hak
      simp [bumpAccrual]
    · have hka : ¬ (k = a) := fun hh => hak hh.symm
      simp only [bumpAccrual, if_neg hak, List.map_cons, List.mem_cons, ih]
      by_cases hk : k ∈ tl.map Prod.fst
      · simp [hk, hka]
      · simp [hk, hka]

theorem bumpAccrual_keys_nodup (m : List (Addr × Accrual)) (k : Addr) (reward : Nat)
    (h : (m.map Prod.fst).Nodup) :
    ((bumpAccrual m k reward).map Prod.fst).Nodup := by
  rw [bumpAccrual_keys]
  by_cases hk : k ∈ m.map Prod.fst
  · simpa [hk] using h
  · simp only [if_neg hk]
    simp [List.nodup_append, h, hk]

theorem aggregate_nil (env : Env) (reward : Nat) (m : List (Addr × Accrual)) :
    aggregate env reward [] m = .ok m := rfl

theorem aggregate_cons (env : Env) (reward : Nat) (e : RaceEvent)
    (rest : List RaceEvent) (m : List (Addr × Accrual)) :
    aggregate env reward (e :: rest) m =
      match env.hasReferrer e.player with
      | .error err => .error err
      | .ok false => aggregate env reward rest m
      | .ok true =>
        match env.referrerOf e.player with
        | .error err => .error err
        | .ok r => aggregate env reward rest (bumpAccrual m r reward) := rfl

/-- `aggregate` preserves distinctness of the map's keys (a JavaScript
`Map` never stores a key twice). -/
theorem aggregate_keys_nodup (env : Env) (reward : Nat) :
    ∀ (events : List RaceEvent) (m m2 : List (Addr × Accrual)),
      (m.map Prod.fst).Nodup → aggregate env reward events m = .ok m2 →
      (m2.map Prod.fst).Nodup := by
  intro events
  induction events with
  | nil =>
    intro m m2 hm h
    rw [aggregate_nil] at h
    cases h
    exact hm
  | cons e rest ih =>
    intro m m2 hm h
    rw [aggregate_cons] at h
    cases hhr : env.hasReferrer e.player with
    | error err => rw [hhr] at h; cases h
    | ok b =>
      rw [hhr] at h
      cases b with
      | false => exact ih m m2 hm h
      | true =>
        dsimp only at h
        cases hro : env.referrerOf e.player with
        | error err => rw [hro] at h; cases h
        | ok r =>
          rw [hro] at h
          exact ih _ m2 (bumpAccrual_keys_nodup m r reward hm) h

/-! ### A concrete healthy environment

Players 1 and 3 are referred to beneficiary 100, player 2 is not;
referrer 100 already has 5 wei pending; the funder has ample balance;
submission and confirmation succeed. -/

def evGood (i : Nat) : RaceEvent := ⟨i, i, 0, [0, 0, 0], 0, false⟩

def envGood : Env where
  getBlockNumber := .ok 20
  queryFilter := fun _ _ => .ok [evGood 1, evGood 2, evGood 3]
  hasReferrer := fun p => .ok (decide (p = 1 ∨ p = 3))
  referrerOf := fun _ => .ok 100
  pendingRewards := fun _ => .ok 5
  getBalance := .ok 1000000
  fundRewards := fun _ _ _ => .ok 7
  txWait := fun _ => .ok 21

/-- A second environment that agrees with `envGood` on every ledger
read but differs elsewhere (the funder is broke). -/
def envGood2 : Env := { envGood with getBalance := .ok 0 }

/-! ### Claim C7 -/

/-- C7: during aggregation an event whose player has no registered
beneficiary is skipped without error, an event whose player has one
increments exactly that beneficiary's accrued reward by
`rewardPerEvent`; and on the concrete 3-event scenario (players 1 and
3 referred to beneficiary 100, player 2 unreferred, reward 5 per
event, beneficiary 100 already 5 pending) the cycle's FundingPlan is
exactly beneficiary 100 ↦ 5. -/
theorem claim_C7_aggregation (env : Env) (reward : Nat) (e : RaceEvent)
    (rest : List RaceEvent) (m : List (Addr × Accrual)) :
    (env.hasReferrer e.player = .ok false →
      aggregate env reward (e :: rest) m = aggregate env reward rest m) ∧
    (∀ b, env.hasReferrer e.player = .ok true → env.referrerOf e.player = .ok b →
      aggregate env reward (e :: rest) m =
        aggregate env reward rest (bumpAccrual m b reward) ∧
      (accrualOf (bumpAccrual m b reward) b).totalReward =
        (accrualOf m b).totalReward + reward ∧
      ∀ a, a ≠ b → accrualOf (bumpAccrual m b reward) a = accrualOf m a) ∧
    trackAndFundReferrals 5 envGood 10 =
      (20, .funded [100] [5] 5, ⟨[(11, 20)], [([100], [5], 5)]⟩) := by
  refine ⟨?_, ?_, by decide⟩
  · intro hskip
    rw [aggregate_cons, hskip]
  · intro b htrue href
    refine ⟨?_, ?_, ?_⟩
    · rw [aggregate_cons, htrue]
      dsimp only
      rw [href]
    · rw [bumpAccrual_self]
    · intro a ha
      exact bumpAccrual_other m b a reward ha

theorem claim_C7_witness :
    aggregate envGood 5 [evGood 2] [] = aggregate envGood 5 [] [] ∧
    aggregate envGood 5 [evGood 1] [] = aggregate envGood 5 [] (bumpAccrual [] 100 5) := by
  constructor
  · exact (claim_C7_aggregation envGood 5 (evGood 2) [] []).1 rfl
  · exact ((claim_C7_aggregation envGood 5 (evGood 1) [] []).2.1 100 rfl rfl).1

/-! ### Witnesses for C2 and C3 -/

theorem claim_C2_witness :
    (∀ pr ∈ ([100] : List Addr).zip ([5] : List Nat), ∃ acc p,
        (pr.1, acc) ∈ [((100 : Addr), (⟨2, 10⟩ : Accrual))] ∧
        envGood.pendingRewards pr.1 = .ok p ∧
        (pr.2 : Int) = max 0 ((acc.totalReward : Int) - (p : Int))) ∧
    (∀ a ∈ ([5] : List Nat), 0 < a) ∧
    (∀ r acc p, (r, acc) ∈ [((100 : Addr), (⟨2, 10⟩ : Accrual))] →
        envGood.pendingRewards r = .ok p →
        max 0 ((acc.totalReward : Int) - (p : Int)) = 0 → r ∉ ([100] : List Addr)) :=
  claim_C2_unfunded_clamped envGood [(100, ⟨2, 10⟩)] [100] [5] 5 (by simp) rfl

theorem claim_C3_witness :
    buildPlan envGood [(100, ⟨2, 10⟩)] = buildPlan envGood2 [(100, ⟨2, 10⟩)] :=
  claim_C3_diffing_idempotent envGood envGood2 [(100, ⟨2, 10⟩)] (fun _ _ => rfl)

/-! ### Anatomy of a whole cycle -/

/-- Case analysis of `trackAndFundReferrals`: an errored cycle keeps
the incoming checkpoint; an insufficient-funds cycle keeps it and
never calls `fundRewards`; a funded outcome implies the submission and
its on-ledger confirmation both succeeded and the checkpoint moved to
the scanned head block; and every `fundRewards` call argument is a
plan `buildPlan` built from an aggregation that started empty;
finally, whenever the height query answered `cb`, exactly one event
query was issued, spanning `fromBlock` (the checkpoint successor, or
the 1000-block lookback when uninitialized) to `cb`. -/
theorem trackAndFund_run_spec (reward : Nat) (env : Env) (lp c1 : Int)
    (out : Outcome) (tr : Trace)
    (hrun : trackAndFundReferrals reward env lp = (c1, out, tr)) :
    (∀ e, out = .errored e → c1 = lp) ∧
    (out = .insufficientFunds → c1 = lp ∧ tr.fundCalls = []) ∧
    (∀ rs amts t, out = .funded rs amts t →
       (∃ tx rcpt, env.fundRewards rs amts t = .ok tx ∧ env.txWait tx = .ok rcpt) ∧
       ∃ cb, env.getBlockNumber = .ok cb ∧ c1 = cb) ∧
    (∀ fc ∈ tr.fundCalls, ∃ events rd,
       aggregate env reward events [] = .ok rd ∧ buildPlan env rd = .ok fc) ∧
    (∀ cb, env.getBlockNumber = .ok cb →
       tr.queries = [(if lp = 0 then cb - 1000 else lp + 1, cb)]) := by
  unfold trackAndFundReferrals at hrun
  cases hgb : env.getBlockNumber with
  | error e0 =>
    rw [hgb] at hrun
    dsimp only at hrun
    injection hrun with h1 h2
    injection h2 with h2 h3
    subst h1; subst h2; subst h3
    exact ⟨fun _ _ => rfl, fun h => Outcome.noConfusion h, fun _ _ _ h => Outcome.noConfusion h, by simp, fun _ h => Except.noConfusion h⟩
  | ok cb =>
    rw [hgb] at hrun
    dsimp only at hrun
    cases hq : env.queryFilter (if lp = 0 then cb - 1000 else lp + 1) cb with
    | error e0 =>
      rw [hq] at hrun
      dsimp only at hrun
      injection hrun with h1 h2
      injection h2 with h2 h3
      subst h1; subst h2; subst h3
      exact ⟨fun _ _ => rfl, fun h => Outcome.noConfusion h, fun _ _ _ h => Outcome.noConfusion h, by simp, fun cb0 h => by rw [← Except.ok.inj h]⟩
    | ok events =>
      rw [hq] at hrun
      dsimp only at hrun
      by_cases hev : events.isEmpty
      · rw [if_pos hev] at hrun
        injection hrun with h1 h2
        injection h2 with h2 h3
        subst h1; subst h2; subst h3
        exact ⟨fun _ h => Outcome.noConfusion h, fun h => Outcome.noConfusion h, fun _ _ _ h => Outcome.noConfusion h, by simp, fun cb0 h => by rw [← Except.ok.inj h]⟩
      · rw [if_neg hev] at hrun
        cases hag : aggregate env reward events [] with
        | error e0 =>
          rw [hag] at hrun
          dsimp only at hrun
          injection hrun with h1 h2
          injection h2 with h2 h3
          subst h1; subst h2; subst h3
          exact ⟨fun _ _ => rfl, fun h => Outcome.noConfusion h, fun _ _ _ h => Outcome.noConfusion h, by simp, fun cb0 h => by rw [← Except.ok.inj h]⟩
        | ok rd =>
          rw [hag] at hrun
          dsimp only at hrun
          by_cases hrd : rd.isEmpty
          · rw [if_pos hrd] at hrun
            injection hrun with h1 h2
            injection h2 with h2 h3
            subst h1; subst h2; subst h3
            exact ⟨fun _ h => Outcome.noConfusion h, fun h => Outcome.noConfusion h, fun _ _ _ h => Outcome.noConfusion h, by simp, fun cb0 h => by rw [← Except.ok.inj h]⟩
          · rw [if_neg hrd] at hrun
            cases hbp : buildPlan env rd with
            | error e0 =>
              rw [hbp] at hrun
              dsimp only at hrun
              injection hrun with h1 h2
              injection h2 with h2 h3
              subst h1; subst h2; subst h3
              exact ⟨fun _ _ => rfl, fun h => Outcome.noConfusion h, fun _ _ _ h => Outcome.noConfusion h, by simp, fun cb0 h => by rw [← Except.ok.inj h]⟩
            | ok triple =>
              obtain ⟨rs0, amts0, t0⟩ := triple
              rw [hbp] at hrun
              dsimp only at hrun
              by_cases hrs : rs0.isEmpty
              · rw [if_pos hrs] at hrun
                injection hrun with h1 h2
                injection h2 with h2 h3
                subst h1; subst h2; subst h3
                exact ⟨fun _ h => Outcome.noConfusion h, fun h => Outcome.noConfusion h, fun _ _ _ h => Outcome.noConfusion h, by simp, fun cb0 h => by rw [← Except.ok.inj h]⟩
              · rw [if_neg hrs] at hrun
                cases hbal : env.getBalance with
                | error e0 =>
                  rw [hbal] at hrun
                  dsimp only at hrun
                  injection hrun with h1 h2
                  injection h2 with h2 h3
                  subst h1; subst h2; subst h3
                  exact ⟨fun _ _ => rfl, fun h => Outcome.noConfusion h, fun _ _ _ h => Outcome.noConfusion h, by simp, fun cb0 h => by rw [← Except.ok.inj h]⟩
                | ok b =>
                  rw [hbal] at hrun
                  dsimp only at hrun
                  by_cases hlt : b < t0
                  · rw [if_pos hlt] at hrun
                    injection hrun with h1 h2
                    injection h2 with h2 h3
                    subst h1; subst h2; subst h3
                    exact ⟨fun _ h => Outcome.noConfusion h, fun _ => ⟨rfl, rfl⟩,
                      fun _ _ _ h => Outcome.noConfusion h, by simp,
                      fun cb0 h => by rw [← Except.ok.inj h]⟩
                  · rw [if_neg hlt] at hrun
                    cases hfr : env.fundRewards rs0 amts0 t0 with
                    | error e0 =>
                      rw [hfr] at hrun
                      dsimp only at hrun
                      injection hrun with h1 h2
                      injection h2 with h2 h3
                      subst h1; subst h2; subst h3
                      refine ⟨fun _ _ => rfl, fun h => Outcome.noConfusion h, fun _ _ _ h => Outcome.noConfusion h, ?_, fun cb0 h => by rw [← Except.ok.inj h]⟩
                      intro fc hfc
                      have hfc1 : fc = (rs0, amts0, t0) := by simpa using hfc
                      subst hfc1
                      exact ⟨events, rd, hag, hbp⟩
                    | ok tx =>
                      rw [hfr] at hrun
                      dsimp only at hrun
                      cases hw : env.txWait tx with
                      | error e0 =>
                        rw [hw] at hrun
                        dsimp only at hrun
                        injection hrun with h1 h2
                        injection h2 with h2 h3
                        subst h1; subst h2; subst h3
                        refine ⟨fun _ _ => rfl, fun h => Outcome.noConfusion h, fun _ _ _ h => Outcome.noConfusion h, ?_, fun cb0 h => by rw [← Except.ok.inj h]⟩
                        intro fc hfc
                        have hfc1 : fc = (rs0, amts0, t0) := by simpa using hfc
                        subst hfc1
                        exact ⟨events, rd, hag, hbp⟩
                      | ok rcpt =>
                        rw [hw] at hrun
                        dsimp only at hrun
                        injection hrun with h1 h2
                        injection h2 with h2 h3
                        subst h1; subst h2; subst h3
                        refine ⟨fun _ h => Outcome.noConfusion h, fun h => Outcome.noConfusion h, ?_, ?_, fun cb0 h => by rw [← Except.ok.inj h]⟩
                        · intro rs amts t hf
                          injection hf with e1 e2 e3
                          subst e1; subst e2; subst e3
                          exact ⟨⟨tx, rcpt, hfr, hw⟩, ⟨cb, rfl, rfl⟩⟩
                        · intro fc hfc
                          have hfc1 : fc = (rs0, amts0, t0) := by simpa using hfc
                          subst hfc1
                          exact ⟨events, rd, hag, hbp⟩

/-! ### Claim C1 -/

/-- C1: if a cycle fails at any step (surfacing an error) or aborts
for insufficient funds, the checkpoint retains the value it had at
cycle start; when the cycle ends in a funded outcome, the submission
and the on-ledger confirmation both succeeded and only then was the
checkpoint advanced to the head block of the scanned window. -/
theorem claim_C1_checkpoint (reward : Nat) (env : Env) (lp c1 : Int)
    (out : Outcome) (tr : Trace)
    (hrun : trackAndFundReferrals reward env lp = (c1, out, tr)) :
    (∀ e, out = .errored e → c1 = lp) ∧
    (out = .insufficientFunds → c1 = lp) ∧
    (∀ rs amts t, out = .funded rs amts t →
       (∃ tx rcpt, env.fundRewards rs amts t = .ok tx ∧ env.txWait tx = .ok rcpt) ∧
       ∃ cb, env.getBlockNumber = .ok cb ∧ c1 = cb) := by
  obtain ⟨h1, h2, h3, _, _⟩ := trackAndFund_run_spec reward env lp c1 out tr hrun
  exact ⟨h1, fun h => (h2 h).1, h3⟩

theorem claim_C1_witness :
    (∃ tx rcpt, envGood.fundRewards [100] [5] 5 = .ok tx ∧ envGood.txWait tx = .ok rcpt) ∧
    ∃ cb, envGood.getBlockNumber = .ok cb ∧ (20 : Int) = cb :=
  (claim_C1_checkpoint 5 envGood 10 20 (.funded [100] [5] 5)
    ⟨[(11, 20)], [([100], [5], 5)]⟩ (by decide)).2.2 [100] [5] 5 rfl

/-! ### Claim C10 -/

/-- C10: every disbursement the cycle submits is well-formed — the
referrer and amount lists have equal length, no referrer repeats,
every amount is strictly positive, and the attached transaction value
equals the sum of the amounts. -/
theorem claim_C10_wellformed (reward : Nat) (env : Env) (lp : Int) :
    ∀ fc ∈ (trackAndFundReferrals reward env lp).2.2.fundCalls,
      fc.1.length = fc.2.1.length ∧ fc.1.Nodup ∧
      (∀ a ∈ fc.2.1, 0 < a) ∧ fc.2.2 = fc.2.1.sum := by
  intro fc hfc
  obtain ⟨_, _, _, h4, _⟩ := trackAndFund_run_spec reward env lp
    (trackAndFundReferrals reward env lp).1
    (trackAndFundReferrals reward env lp).2.1
    (trackAndFundReferrals reward env lp).2.2 rfl
  obtain ⟨events, rd, hag, hbp⟩ := h4 fc hfc
  have hnd : (rd.map Prod.fst).Nodup :=
    aggregate_keys_nodup env reward events [] rd (by simp) hag
  obtain ⟨hlen, hpos, hsum, hsub, _⟩ :=
    buildPlan_ok_spec env rd fc.1 fc.2.1 fc.2.2 hbp
  exact ⟨hlen, hsub.nodup hnd, hpos, hsum⟩

theorem claim_C10_witness :
    (([100] : List Addr).length = ([5] : List Nat).length ∧
     ([100] : List Addr).Nodup ∧
     (∀ a ∈ ([5] : List Nat), 0 < a) ∧
     (5 : Nat) = ([5] : List Nat).sum) :=
  claim_C10_wellformed 5 envGood 10 ([100], [5], 5) (by decide)

/-! ### Claim C6 -/

/-- C6: when the cycle reaches the balance check with a funder balance
strictly below the plan total, it ends in the insufficient-funds
outcome, the checkpoint keeps its starting value, and no `fundRewards`
submission is issued. -/
theorem claim_C6_insufficient (reward : Nat) (env : Env) (lp cb : Int)
    (events : List RaceEvent) (rd : List (Addr × Accrual))
    (rs : List Addr) (amts : List Nat) (t b : Nat)
    (h1 : env.getBlockNumber = .ok cb)
    (h2 : env.queryFilter (if lp = 0 then cb - 1000 else lp + 1) cb = .ok events)
    (h3 : events.isEmpty = false)
    (h4 : aggregate env reward events [] = .ok rd)
    (h5 : rd.isEmpty = false)
    (h6 : buildPlan env rd = .ok (rs, amts, t))
    (h7 : rs.isEmpty = false)
    (h8 : env.getBalance = .ok b)
    (h9 : b < t) :
    trackAndFundReferrals reward env lp =
      (lp, .insufficientFunds, ⟨[(if lp = 0 then cb - 1000 else lp + 1, cb)], []⟩) := by
  simp [trackAndFundReferrals, h1, h2, h3, h4, h5, h6, h7, h8, h9]

/-- The insufficient-balance scenario of the spec: the funder holds
0.0001 ETH while the plan total is 0.0002 ETH (two referred races at
the reward of 0.0001 ETH used here, nothing pending yet). -/
def envPoor : Env :=
  { envGood with pendingRewards := fun _ => .ok 0, getBalance := .ok 100000000000000 }

theorem claim_C6_witness :
    trackAndFundReferrals 100000000000000 envPoor 10 =
      (10, .insufficientFunds, ⟨[(11, 20)], []⟩) :=
  claim_C6_insufficient 100000000000000 envPoor 10 20 [evGood 1, evGood 2, evGood 3]
    [(100, ⟨2, 200000000000000⟩)] [100] [200000000000000] 200000000000000 100000000000000
    rfl rfl rfl rfl rfl rfl rfl rfl (by norm_num)

/-! ### Claim C4 — the code never bounds the scan window -/

/-- Modelled from the spec: `nextWindow(checkpoint, currentHeight,
maxRange, initialLookback)` of the WindowScanner — `fromBlock =
checkpoint + 1` (or the clamped lookback when uninitialized) and
`toBlock = min(fromBlock + maxRange, currentHeight)`.  No such
clamping exists in src/index.js, which always queries up to the
current head block. -/
def spec_nextWindow (checkpoint currentHeight maxRange initialLookback : Int) :
    Int × Int :=
  let fromBlock :=
    if checkpoint = 0 then max 0 (currentHeight - initialLookback) else checkpoint + 1
  (fromBlock, min (fromBlock + maxRange) currentHeight)

/-- A chain far ahead of the checkpoint, with no events in range. -/
def envTall : Env :=
  { envGood with getBlockNumber := .ok 1000, queryFilter := fun _ _ => .ok [] }

/-- C4 fails on the code: at checkpoint 1 and height 1000 the cycle
queries blocks 2..1000 in one request, whereas the claimed window
formula (here with maxRange 100) caps the query at block 102. -/
theorem claim_C4_counterexample :
    (trackAndFundReferrals 5 envTall 1).2.2.queries = [(2, 1000)] ∧
    spec_nextWindow 1 1000 100 1000 = (2, 102) ∧
    (1000 : Int) ≠ 102 := ⟨by decide, by decide, by decide⟩

/-- C4 amended: for a nonzero checkpoint C the single query spans
`fromBlock = C + 1` up to `toBlock = currentHeight` — the code has no
`maxRange` bound at all. -/
theorem claim_C4_amended (reward : Nat) (env : Env) (lp cb : Int)
    (hlp : lp ≠ 0) (hgb : env.getBlockNumber = .ok cb) :
    (trackAndFundReferrals reward env lp).2.2.queries = [(lp + 1, cb)] := by
  obtain ⟨_, _, _, _, h5⟩ := trackAndFund_run_spec reward env lp
    (trackAndFundReferrals reward env lp).1
    (trackAndFundReferrals reward env lp).2.1
    (trackAndFundReferrals reward env lp).2.2 rfl
  rw [h5 cb hgb, if_neg hlp]

theorem claim_C4_witness :
    (trackAndFundReferrals 5 envTall 1).2.2.queries = [(2, 1000)] :=
  claim_C4_amended 5 envTall 1 1000 (by decide) rfl

/-! ### Claim C5 — there is no retry wrapper -/

/-- The execution discipline of src/index.js for every fallible
network operation: the (attempt-indexed) operation is invoked exactly
once, at attempt 0 — no retry wrapper exists anywhere in the file. -/
def singleAttempt {α : Type} (op : Nat → Except WErr α) : Except WErr α := op 0

/-- Modelled from the spec: the RetryExecutor contract
`execute(operation, maxRetries)`, absent from src/index.js.  The
operation is tried at attempts `i, i + 1, ...` with `fuel` further
attempts allowed after the current one, so the spec's
`execute(op, maxRetries)` is `spec_execute op 0 (maxRetries - 1)`;
on exhausting attempts the last error is propagated unchanged.  (The
spec's backoff delay `2 ^ i * baseDelay` is wall-clock only and has no
observable effect on the returned value.) -/
def spec_execute {α : Type} (op : Nat → Except WErr α) : Nat → Nat → Except WErr α
  | i, 0 => op i
  | i, fuel + 1 =>
    match op i with
    | .ok a => .ok a
    | .error _ => spec_execute op (i + 1) fuel

/-- A height query that fails on its first attempt and succeeds on any
later one. -/
def flakyHeight : Nat → Except WErr Int :=
  fun i => if i = 0 then .error (.network 99) else .ok 20

/-- An environment whose height query behaves as the code executes it:
one single attempt of `flakyHeight`. -/
def envFlaky : Env := { envGood with getBlockNumber := singleAttempt flakyHeight }

/-- C5 fails on the code: executing `flakyHeight` the way src/index.js
does (one attempt) yields the transport error while the spec's retry
wrapper with 3 attempts returns the height, and with that oracle the
whole cycle aborts errored instead of proceeding — no operation is
routed through any retry wrapper. -/
theorem claim_C5_counterexample :
    singleAttempt flakyHeight = .error (.network 99) ∧
    spec_execute flakyHeight 0 2 = .ok 20 ∧
    singleAttempt flakyHeight ≠ spec_execute flakyHeight 0 2 ∧
    trackAndFundReferrals 5 envFlaky 10 = (10, .errored (.network 99), ⟨[], []⟩) :=
  ⟨rfl, rfl, fun h => Except.noConfusion h, by decide⟩

/-- C5 amended: every fallible network operation is attempted exactly
once with no backoff; the first failure aborts the cycle and reaches
the catch block unchanged (shown here for the first two operations of
the cycle; the checkpoint is also untouched). -/
theorem claim_C5_amended (reward : Nat) (env : Env) (lp : Int) :
    (∀ e, env.getBlockNumber = .error e →
      trackAndFundReferrals reward env lp = (lp, .errored e, ⟨[], []⟩)) ∧
    (∀ e cb, env.getBlockNumber = .ok cb →
      env.queryFilter (if lp = 0 then cb - 1000 else lp + 1) cb = .error e →
      trackAndFundReferrals reward env lp =
        (lp, .errored e, ⟨[(if lp = 0 then cb - 1000 else lp + 1, cb)], []⟩)) := by
  constructor
  · intro e hgb
    simp [trackAndFundReferrals, hgb]
  · intro e cb hgb hq
    simp [trackAndFundReferrals, hgb, hq]

theorem claim_C5_witness :
    trackAndFundReferrals 5 envFlaky 10 = (10, .errored (.network 99), ⟨[], []⟩) :=
  (claim_C5_amended 5 envFlaky 10).1 (.network 99) rfl

/-! ### Claim C8 — the initial lookback is not clamped -/

/-- A young chain: the head is block 5, below the 1000-block
lookback. -/
def envYoung : Env :=
  { envGood with getBlockNumber := .ok 5, queryFilter := fun _ _ => .ok [] }

/-- C8 fails on the code: with checkpoint 0 and height 5 the first
cycle queries from block −995, not from `max 0 (5 − 1000) = 0` — the
source computes `currentBlock - 1000` with no clamp. -/
theorem claim_C8_counterexample :
    (trackAndFundReferrals 5 envYoung 0).2.2.queries = [(-995, 5)] ∧
    (-995 : Int) ≠ max 0 (5 - 1000) := ⟨by decide, by decide⟩

/-- C8 amended: on the very first cycle (checkpoint 0) the query
starts at exactly `currentHeight − 1000` (the lookback is the fixed
constant 1000 and is not clamped at zero). -/
theorem claim_C8_amended (reward : Nat) (env : Env) (cb : Int)
    (hgb : env.getBlockNumber = .ok cb) :
    (trackAndFundReferrals reward env 0).2.2.queries = [(cb - 1000, cb)] := by
  obtain ⟨_, _, _, _, h5⟩ := trackAndFund_run_spec reward env 0
    (trackAndFundReferrals reward env 0).1
    (trackAndFundReferrals reward env 0).2.1
    (trackAndFundReferrals reward env 0).2.2 rfl
  rw [h5 cb hgb, if_pos rfl]

theorem claim_C8_witness :
    (trackAndFundReferrals 5 envYoung 0).2.2.queries = [(5 - 1000, 5)] :=
  claim_C8_amended 5 envYoung 5 rfl

/-! ### Claim C9 — the empty window is still queried -/

/-- A stalled chain: the head equals the checkpoint (block 10) and the
provider answers the inverted-range query with an empty list. -/
def envStall : Env :=
  { envGood with getBlockNumber := .ok 10, queryFilter := fun _ _ => .ok [] }

/-- C9 fails on the code: with `currentHeight == checkpoint` the cycle
does issue an event query — over the inverted range (11, 10) — rather
than issuing none. -/
theorem claim_C9_counterexample :
    (trackAndFundReferrals 5 envStall 10).2.2.queries = [(11, 10)] ∧
    [((11 : Int), (10 : Int))] ≠ ([] : List (Int × Int)) := ⟨by decide, by decide⟩

/-- C9 amended: when the head equals the (nonzero) checkpoint, the
cycle still issues one query over the inverted window
`(checkpoint + 1, checkpoint)`; if the provider returns an empty list
the checkpoint is reassigned its old value (unchanged) and the cycle
reports no new races. -/
theorem claim_C9_amended (reward : Nat) (env : Env) (lp : Int)
    (hlp : lp ≠ 0) (hgb : env.getBlockNumber = .ok lp)
    (hq : env.queryFilter (lp + 1) lp = .ok []) :
    trackAndFundReferrals reward env lp =
      (lp, .noNewRaces, ⟨[(lp + 1, lp)], []⟩) := by
  simp [trackAndFundReferrals, hgb, hlp, hq]

theorem claim_C9_witness :
    trackAndFundReferrals 5 envStall 10 = (10, .noNewRaces, ⟨[(11, 10)], []⟩) :=
  claim_C9_amended 5 envStall 10 (by decide) rfl rfl

end PonyWorker
